import Mathlib

/-!
Shallow embedding of `src/main.py`, a batch LLM document-translation
script.  Python strings are modelled as `List Char`; the output
directory tree is an association list from relative path to file
content; the external OpenAI client and the fallibility of file reads
and writes are modelled by per-item oracles.
-/

/-- Python strings, modelled as lists of characters. -/
abbrev Str := List Char

/-- Converts a Lean string literal into the `Str` model. -/
def strL (s : String) : Str := s.data

/-- Whitespace characters removed by Python `str.strip()`: the full
`Py_UNICODE_ISSPACE` set of modern CPython — ASCII whitespace, the
information separators U+001C-001F, NEL U+0085, NBSP U+00A0, Ogham
space mark U+1680, the Unicode space separators U+2000-200A, the line
and paragraph separators U+2028/U+2029, narrow no-break space U+202F,
medium mathematical space U+205F and ideographic space U+3000. -/
def pySpaceChars : List Char :=
  ['\t', '\n', '\x0b', '\x0c', '\r', '\x1c', '\x1d', '\x1e', '\x1f', ' ',
    '\x85', '\xa0', '\u1680', '\u2000', '\u2001', '\u2002', '\u2003',
    '\u2004', '\u2005', '\u2006', '\u2007', '\u2008', '\u2009', '\u200A',
    '\u2028', '\u2029', '\u202F', '\u205F', '\u3000']

/-- Tests whether `str.strip()` removes this character. -/
def isPySpace (c : Char) : Bool := pySpaceChars.contains c

/-- Model of Python `s.strip()`: drop whitespace from both ends. -/
def pyStrip (s : Str) : Str :=
  ((s.dropWhile isPySpace).reverse.dropWhile isPySpace).reverse

/-- Model of Python `s.split('\n', 1)[1]`: the text after the first
newline, or `none` when there is no newline (Python raises IndexError). -/
def afterFirstNl : Str → Option Str
  | [] => none
  | c :: rest => if c = '\n' then some rest else afterFirstNl rest

/-- Model of Python `s.rsplit('\n', 1)[0]`: the text before the last
newline, or the whole string when there is no newline. -/
def beforeLastNl (s : Str) : Str :=
  match afterFirstNl s.reverse with
  | none => s
  | some r => r.reverse

/-- The envelope separator `"\n---\n"` (see `save_translated_file` and
the request body built in `translate_file`). -/
def sepStr : Str := strL "\n---\n"

/-- The markdown fence marker checked by `save_translated_file`. -/
def fenceStr : Str := strL "```"

/-- Model of Python `s.split(sep, 1)[1]` for a fixed non-empty `sep`:
the text after the first occurrence of `sep`, or `none` when `sep` does
not occur (Python's unpacking then raises ValueError). -/
def splitAfterFirst (sep : Str) : Str → Option Str
  | [] => none
  | c :: rest =>
    if sep.isPrefixOf (c :: rest) then some (List.drop sep.length (c :: rest))
    else splitAfterFirst sep rest

/-- Lines 86-87 of `save_translated_file`: when the stripped text starts
and ends with a triple-backtick fence, drop the first and the last line;
`none` models the IndexError raised by `split('\n', 1)[1]` when the text
has no newline at all. -/
def fenceStrip (s : Str) : Option Str :=
  if fenceStr.isPrefixOf s && fenceStr.isSuffixOf s then
    match afterFirstNl s with
    | none => none
    | some r => some (beforeLastNl r)
  else some s

/-- The decode pipeline of `save_translated_file` up to line 90: strip,
unwrap an optional fence, split on the first `"\n---\n"`.  `none` models
the ValueError/IndexError branch. -/
def decodeOption (resp : Str) : Option Str :=
  (fenceStrip (pyStrip resp)).bind (splitAfterFirst sepStr)

/-- The content that `save_translated_file` writes for a response: the
decoded body, or the complete raw response on the fallback path. -/
def decodeContent (resp : Str) : Str :=
  (decodeOption resp).getD resp

/-- Line 133 of `translate_file`: the request envelope
`f"FILE_PATH: {relative_path.as_posix()}\n---\n{content}"`. -/
def encodeEnvelope (relPath content : Str) : Str :=
  strL "FILE_PATH: " ++ relPath ++ sepStr ++ content

/-- Python `PurePath.name`: the final component of a posix-style path. -/
def baseName (p : Str) : Str :=
  (p.reverse.takeWhile (fun c => c ≠ '/')).reverse

/-- Tests that a character is not the extension dot. -/
def notDot (c : Char) : Bool := c ≠ '.'

/-- Python `PurePath.suffix` of a file name: the extension from the last
dot to the end, empty when the name has no dot, starts with its only dot
(hidden file), or ends with the dot. -/
def pySuffix (name : Str) : Str :=
  let t := name.reverse.takeWhile notDot
  if 0 < t.length ∧ t.length < name.length - 1 then '.' :: t.reverse else []

/-- One file of the input tree: its path relative to the input root
(posix-style) and its content. -/
structure SrcFile where
  rel : Str
  content : Str
deriving DecidableEq

/-- The output directory tree, as an association list from relative path
to file content.  Directories are not modelled; only file creation is. -/
abbrev FS := List (Str × Str)

/-- Looks a relative path up in the output tree. -/
def fsFind : FS → Str → Option Str
  | [], _ => none
  | (q, c) :: rest, p => if q = p then some c else fsFind rest p

/-- Writes a file: the new binding shadows any older one. -/
def fsInsert (p c : Str) (fs : FS) : FS := (p, c) :: fs

/-- The log levels used with `log_translate_progress`. -/
inductive Level where
  | info
  | error
deriving DecidableEq

/-- Which progress message a work item produced. -/
inductive LogKind where
  | skip
  | success
  | fail (msg : Str)
deriving DecidableEq

/-- One `[index/total]` line emitted through `log_translate_progress`. -/
structure LogEntry where
  level : Level
  index : Nat
  kind : LogKind
deriving DecidableEq

/-- Per-item oracle for the effects `translate_file` performs: the
result of `file_path.read_text`, the accumulated streamed completion the
client returns for a given request (or the API error raised), and
whether each of the two `write_text` sites succeeds. -/
structure ItemEnv where
  readRes : Except Str Str
  apiRes : Str → Except Str Str
  writeMainOk : Bool
  writeFallbackOk : Bool

/-- Model of `save_translated_file` (lines 81-99).  `none` means an
exception escaped the function: that happens only when the raw-fallback
write itself raises, since an exception from the decode-success write is
caught by the final `except Exception` clause, logged, and swallowed
(the function then returns normally without having written anything). -/
def saveTranslatedFile (resp : Str) (outPath : Str) (wMain wFb : Bool)
    (fs : FS) : Option FS :=
  match decodeOption resp with
  | some content => if wMain then some (fsInsert outPath content fs) else some fs
  | none => if wFb then some (fsInsert outPath resp fs) else none

/-- The result of dispatching one or more work items: the output tree,
the value of `log_translate_progress._index`, the progress lines emitted,
and how many chat-completion requests were issued. -/
structure RunResult where
  fs : FS
  counter : Nat
  logs : List LogEntry
  apiCalls : Nat
deriving DecidableEq

/-- Model of `translate_file` (lines 122-161) for one work item.  The
shared progress counter is modelled sequentially here (each completion
increments it by one); the unsynchronized interleaving of the increment
itself is modelled separately by `raceStep`. -/
def translateFile (env : ItemEnv) (item : SrcFile) (fs : FS) (k : Nat) :
    RunResult :=
  match fsFind fs item.rel with
  | some _ => ⟨fs, k + 1, [⟨.info, k + 1, .skip⟩], 0⟩
  | none =>
    match env.readRes with
    | .error e => ⟨fs, k + 1, [⟨.error, k + 1, .fail e⟩], 0⟩
    | .ok content =>
      match env.apiRes (encodeEnvelope item.rel content) with
      | .error e => ⟨fs, k + 1, [⟨.error, k + 1, .fail e⟩], 1⟩
      | .ok resp =>
        match saveTranslatedFile resp item.rel env.writeMainOk
            env.writeFallbackOk fs with
        | some fs1 => ⟨fs1, k + 1, [⟨.info, k + 1, .success⟩], 1⟩
        | none => ⟨fs, k + 1, [⟨.error, k + 1, .fail (strL "write")⟩], 1⟩

/-- Model of `find_doc_files` (lines 12-19): every file under the input
root whose name ends with one of the configured extensions. -/
def findDocFiles (tree : List SrcFile) (exts : List Str) : List SrcFile :=
  tree.filter (fun f => exts.any (fun e => e.isSuffixOf (baseName f.rel)))

/-- Model of `sync_directories` (lines 101-113): copy every file whose
suffix is not in the translatable set to the mirrored path, but only
when no file exists there yet. -/
def syncDirectories (tree : List SrcFile) (exts : List Str) (fs : FS) : FS :=
  tree.foldl
    (fun acc f =>
      if pySuffix (baseName f.rel) ∉ exts ∧ (fsFind acc f.rel) = none then
        fsInsert f.rel f.content acc
      else acc)
    fs

/-- Dispatch of the work-item list (lines 206-217): each item runs
`translate_file` once; `i` indexes into the per-item oracles. -/
def runItems (envf : Nat → ItemEnv) (items : List SrcFile) (fs : FS)
    (k : Nat) (i : Nat) : RunResult :=
  match items with
  | [] => ⟨fs, k, [], 0⟩
  | it :: rest =>
    let r1 := translateFile (envf i) it fs k
    let r2 := runItems envf rest r1.fs r1.counter (i + 1)
    ⟨r2.fs, r2.counter, r1.logs ++ r2.logs, r1.apiCalls + r2.apiCalls⟩

/-- The run-level configuration taken from the command line, plus the
two environment facts `main` tests: whether the input path is a
directory and whether the OpenAI client constructor succeeds. -/
structure Config where
  apiKey : Str
  inputIsDir : Bool
  clientOk : Bool
  exts : List Str

/-- How a run of `main` ends. -/
inductive RunStatus where
  | fatalNoKey
  | fatalNotDir
  | noFiles
  | fatalClientInit
  | completed
deriving DecidableEq

/-- The observable result of one run of `main`. -/
structure MainResult where
  fs : FS
  logs : List LogEntry
  apiCalls : Nat
  status : RunStatus

/-- Model of `main` (lines 163-219): credential check, input-directory
check, mirror synchronization, discovery, client construction, dispatch.
The progress counter starts at 0 (module-level `_index = 0`). -/
def mainRun (cfg : Config) (tree : List SrcFile) (envf : Nat → ItemEnv)
    (fs : FS) : MainResult :=
  if cfg.apiKey = [] ∨ cfg.apiKey = strL "..." then ⟨fs, [], 0, .fatalNoKey⟩
  else if !cfg.inputIsDir then ⟨fs, [], 0, .fatalNotDir⟩
  else
    let fs1 := syncDirectories tree cfg.exts fs
    let items := findDocFiles tree cfg.exts
    if items.isEmpty then ⟨fs1, [], 0, .noFiles⟩
    else if !cfg.clientOk then ⟨fs1, [], 0, .fatalClientInit⟩
    else
      let r := runItems envf items fs1 0 0
      ⟨r.fs, r.logs, r.apiCalls, .completed⟩

/-- One worker thread's position inside the body of
`log_translate_progress` and the value of `_index` it loaded.  CPython
executes `log_translate_progress._index += 1` as a separate attribute
load, add, and attribute store, and line 118 loads `_index` again for
the message, so the body is three atomic sub-steps per thread: `pc = 0`
load, `pc = 1` store of the loaded value plus one, `pc = 2` load again
and emit the message; `pc = 3` is done. -/
structure ThreadSt where
  pc : Nat
  localv : Nat
deriving DecidableEq

/-- Shared state of the concurrent progress logger: the module-level
`log_translate_progress._index`, each thread's position, and the indices
rendered into the emitted `[k/total]` messages, in emission order. -/
structure RaceState where
  shared : Nat
  threads : List ThreadSt
  logs : List Nat
deriving DecidableEq

/-- Runs one atomic sub-step of thread `i` of the progress logger. -/
def raceStep (s : RaceState) (i : Nat) : RaceState :=
  match s.threads[i]? with
  | none => s
  | some t =>
    if t.pc = 0 then
      { s with threads := s.threads.set i ⟨1, s.shared⟩ }
    else if t.pc = 1 then
      { s with shared := t.localv + 1, threads := s.threads.set i ⟨2, t.localv⟩ }
    else if t.pc = 2 then
      { s with threads := s.threads.set i ⟨3, t.localv⟩,
               logs := s.logs ++ [s.shared] }
    else s

/-- Runs the sub-steps of all threads in the order given by `sched`. -/
def raceExec (sched : List Nat) (s : RaceState) : RaceState :=
  sched.foldl raceStep s

/-- Initial state: `_index = 0`, `n` threads each about to enter
`log_translate_progress`, nothing emitted yet. -/
def raceInit (n : Nat) : RaceState :=
  ⟨0, List.replicate n ⟨0, 0⟩, []⟩

/-- Spec-side characterization used to state the codec claims: `post`
is the portion of `s` strictly after the first occurrence of `sep`. -/
def isAfterFirstOcc (sep s post : Str) : Prop :=
  ∃ pre, s = pre ++ sep ++ post ∧
    ∀ pre' post', s = pre' ++ sep ++ post' → pre.length ≤ pre'.length

/-- Executable test stating that no separator occurrence survives
trimming and fence-stripping (including the case where fence-stripping
itself raises, when the whole text then has no newline at all). -/
def noSeparatorFound (resp : Str) : Bool :=
  match fenceStrip (pyStrip resp) with
  | none => true
  | some cleaned => !(decide (sepStr <:+: cleaned))

/-- Witness environment whose oracles would translate if consulted. -/
def envSkip : ItemEnv := ⟨.ok [], fun _ => .ok [], true, true⟩

/-- Work-item environment in which the decode-success write raises. -/
def envWriteFail : ItemEnv :=
  ⟨.ok (strL "Hello"), fun _ => .ok (strL "FILE_PATH: a.md\n---\n你好"),
    false, true⟩

/-- Work-item environment in which the source read raises. -/
def envReadFail : ItemEnv := ⟨.error (strL "boom"), fun _ => .ok [], true, true⟩

/-- Witness configuration whose client constructor fails. -/
def cfgClientFail : Config := ⟨strL "sk-key", true, false, [strL ".md"]⟩

/-- Work-item environment whose API request raises. -/
def envApiFail : ItemEnv :=
  ⟨.ok (strL "Hello"), fun _ => .error (strL "api down"), true, true⟩

/-- Run configuration with a valid key, a directory input and a working
client. -/
def cfgOk : Config := ⟨strL "sk-key", true, true, [strL ".md"]⟩

/-- An oracle under which a work item cannot fail: the read succeeds,
every API request succeeds, and both write sites succeed. -/
def GoodEnv (env : ItemEnv) : Prop :=
  (∃ content, env.readRes = .ok content) ∧
  (∀ q, ∃ resp, env.apiRes q = .ok resp) ∧
  env.writeMainOk = true ∧ env.writeFallbackOk = true

/-- Work-item environment whose oracles all succeed. -/
def envAllOk : ItemEnv :=
  ⟨.ok (strL "Hello"), fun _ => .ok (strL "FILE_PATH: a.md\n---\nHola"),
    true, true⟩

lemma splitAfterFirst_some (sep : Str) :
    ∀ s post, splitAfterFirst sep s = some post → isAfterFirstOcc sep s post := by
  intro s
  induction s with
  | nil => intro post h; simp [splitAfterFirst] at h
  | cons c rest ih =>
    intro post h
    unfold splitAfterFirst at h
    by_cases hp : sep.isPrefixOf (c :: rest)
    · rw [if_pos hp] at h
      obtain ⟨t, ht⟩ := List.isPrefixOf_iff_prefix.mp hp
      refine ⟨[], ?_, fun pre' post' _ => Nat.zero_le _⟩
      have hpost : post = t := by
        have := h.symm
        rw [Option.some_inj] at this
        rw [this, ← ht, List.drop_left]
      rw [hpost, List.nil_append, ht]
    · rw [if_neg hp] at h
      obtain ⟨pre₀, hdec, hmin⟩ := ih post h
      refine ⟨c :: pre₀, by rw [List.cons_append, List.cons_append, ← hdec], ?_⟩
      intro pre' post' heq
      cases pre' with
      | nil =>
        exfalso
        apply hp
        rw [List.nil_append] at heq
        exact List.isPrefixOf_iff_prefix.mpr ⟨post', heq.symm⟩
      | cons c₁ pre₁ =>
        rw [List.cons_append, List.cons_append, List.cons.injEq] at heq
        have := hmin pre₁ post' (by rw [heq.2, List.append_assoc])
        simpa using Nat.succ_le_succ this

lemma splitAfterFirst_isSome_of_infix (sep : Str) (hne : sep ≠ []) :
    ∀ s, sep <:+: s → (splitAfterFirst sep s).isSome := by
  intro s
  induction s with
  | nil =>
    intro h
    exact absurd (List.eq_nil_of_infix_nil h) hne
  | cons c rest ih =>
    intro h
    unfold splitAfterFirst
    by_cases hp : sep.isPrefixOf (c :: rest)
    · rw [if_pos hp]; rfl
    · rw [if_neg hp]
      obtain ⟨pre, post, heq⟩ := h
      cases pre with
      | nil =>
        exact absurd (List.isPrefixOf_iff_prefix.mpr ⟨post, by simpa using heq⟩) hp
      | cons c₁ pre₁ =>
        apply ih
        rw [List.cons_append, List.cons_append, List.cons.injEq] at heq
        exact ⟨pre₁, post, heq.2⟩

lemma splitAfterFirst_none_iff (sep : Str) (hne : sep ≠ []) (s : Str) :
    splitAfterFirst sep s = none ↔ ¬ sep <:+: s := by
  constructor
  · intro h hinf
    have := splitAfterFirst_isSome_of_infix sep hne s hinf
    rw [h] at this
    simp at this
  · intro h
    cases hs : splitAfterFirst sep s with
    | none => rfl
    | some post =>
      obtain ⟨pre, hdec, -⟩ := splitAfterFirst_some sep s post hs
      exact absurd ⟨pre, post, hdec.symm⟩ h

/-- C2: for every response whose text, after trimming and after
stripping a surrounding triple-backtick fence, contains the separator
`"\n---\n"`, the decoded content is exactly the portion after the first
occurrence of that separator. -/
theorem decode_after_first_separator (resp cleaned : Str)
    (hclean : fenceStrip (pyStrip resp) = some cleaned)
    (hsep : sepStr <:+: cleaned) :
    isAfterFirstOcc sepStr cleaned (decodeContent resp) := by
  have hne : sepStr ≠ [] := by decide
  have hs := splitAfterFirst_isSome_of_infix sepStr hne cleaned hsep
  obtain ⟨post, hpost⟩ := Option.isSome_iff_exists.mp hs
  have hdo : decodeOption resp = some post := by
    rw [decodeOption, hclean, Option.some_bind, hpost]
  have hdc : decodeContent resp = post := by rw [decodeContent, hdo, Option.getD_some]
  rw [hdc]
  exact splitAfterFirst_some sepStr cleaned post hpost

/-- Witness for C2: the spec example `"FILE_PATH: a/b.md\n---\nHola"`
decodes to `"Hola"`, the portion after the first separator. -/
theorem decode_after_first_separator_witness :
    isAfterFirstOcc sepStr (strL "FILE_PATH: a/b.md\n---\nHola")
      (decodeContent (strL "FILE_PATH: a/b.md\n---\nHola")) ∧
    decodeContent (strL "FILE_PATH: a/b.md\n---\nHola") = strL "Hola" :=
  ⟨decode_after_first_separator (strL "FILE_PATH: a/b.md\n---\nHola")
      (strL "FILE_PATH: a/b.md\n---\nHola") (by decide) (by decide),
    by decide⟩

/-- C3: when no separator is found after trimming and fence-stripping,
decoding does not raise: the decoded content is the complete raw
response, and `save_translated_file` persists exactly that raw response
at the output path. -/
theorem decode_fallback_raw (resp outPath : Str) (fs : FS) (wMain : Bool)
    (h : noSeparatorFound resp = true) :
    decodeContent resp = resp ∧
    saveTranslatedFile resp outPath wMain true fs =
      some (fsInsert outPath resp fs) := by
  have hdec : decodeOption resp = none := by
    rw [decodeOption]
    unfold noSeparatorFound at h
    cases hf : fenceStrip (pyStrip resp) with
    | none => rfl
    | some cleaned =>
      rw [hf] at h
      simp only [Bool.not_eq_true', decide_eq_false_iff_not] at h
      rw [Option.some_bind]
      exact (splitAfterFirst_none_iff sepStr (by decide) cleaned).mpr h
  refine ⟨by rw [decodeContent, hdec, Option.getD_none], ?_⟩
  rw [saveTranslatedFile, hdec]
  simp

/-- Witness for C3: a response with a missing separator is persisted
verbatim. -/
theorem decode_fallback_raw_witness :
    noSeparatorFound (strL "FILE_PATH: a/b.md --- Hola") = true ∧
    decodeContent (strL "FILE_PATH: a/b.md --- Hola") =
      strL "FILE_PATH: a/b.md --- Hola" ∧
    saveTranslatedFile (strL "FILE_PATH: a/b.md --- Hola") (strL "a/b.md")
        true true [] =
      some (fsInsert (strL "a/b.md") (strL "FILE_PATH: a/b.md --- Hola") []) :=
  ⟨by decide,
    (decode_fallback_raw (strL "FILE_PATH: a/b.md --- Hola") (strL "a/b.md")
        [] true (by decide)).1,
    (decode_fallback_raw (strL "FILE_PATH: a/b.md --- Hola") (strL "a/b.md")
        [] true (by decide)).2⟩

lemma translateFile_skip_eq (env : ItemEnv) (item : SrcFile) (fs : FS)
    (k : Nat) (c : Str) (h : fsFind fs item.rel = some c) :
    translateFile env item fs k = ⟨fs, k + 1, [⟨.info, k + 1, .skip⟩], 0⟩ := by
  unfold translateFile
  rw [h]

/-- C4: when the mirrored output path already exists, the worker makes
no API call, leaves the output tree completely unchanged, reports the
item as skipped at info level, and still advances the progress index. -/
theorem skip_existing_output (env : ItemEnv) (item : SrcFile) (fs : FS)
    (k : Nat) (c : Str) (h : fsFind fs item.rel = some c) :
    translateFile env item fs k = ⟨fs, k + 1, [⟨.info, k + 1, .skip⟩], 0⟩ :=
  translateFile_skip_eq env item fs k c h

/-- Witness for C4: a pre-existing `a.md` output is left untouched. -/
theorem skip_existing_output_witness :
    fsFind [(strL "a.md", strL "old")] (strL "a.md") = some (strL "old") ∧
    translateFile envSkip ⟨strL "a.md", strL "new"⟩ [(strL "a.md", strL "old")] 0 =
      ⟨[(strL "a.md", strL "old")], 1, [⟨.info, 1, .skip⟩], 0⟩ :=
  ⟨by decide,
    skip_existing_output envSkip ⟨strL "a.md", strL "new"⟩
      [(strL "a.md", strL "old")] 0 (strL "old") (by decide)⟩

lemma translateFile_counter_logs (env : ItemEnv) (item : SrcFile) (fs : FS)
    (k : Nat) :
    (translateFile env item fs k).counter = k + 1 ∧
    (translateFile env item fs k).logs.length = 1 := by
  constructor <;> (unfold translateFile; repeat' split) <;> rfl

lemma runItems_counter_logs (envf : Nat → ItemEnv) :
    ∀ (items : List SrcFile) (fs : FS) (k i : Nat),
      (runItems envf items fs k i).logs.length = items.length ∧
      (runItems envf items fs k i).counter = k + items.length := by
  intro items
  induction items with
  | nil => intro fs k i; exact ⟨rfl, rfl⟩
  | cons it rest ih =>
    intro fs k i
    simp only [runItems]
    have h1 := translateFile_counter_logs (envf i) it fs k
    have h2 := ih (translateFile (envf i) it fs k).fs
      (translateFile (envf i) it fs k).counter (i + 1)
    refine ⟨?_, ?_⟩
    · rw [List.length_append, h1.2, h2.1, List.length_cons]
      omega
    · rw [h2.2, h1.1, List.length_cons]
      omega

/-- C5: during dispatch, every work item discovered by the scanner
produces exactly one progress-counted outcome: the number of emitted
progress lines equals the number of discovered items and the shared
index advances by exactly one per item, whatever each item's oracles do
(skip, success, decode fallback, read/API/write failure). -/
theorem one_outcome_per_item (envf : Nat → ItemEnv) (tree : List SrcFile)
    (exts : List Str) (fs : FS) (k i : Nat) :
    (runItems envf (findDocFiles tree exts) fs k i).logs.length =
      (findDocFiles tree exts).length ∧
    (runItems envf (findDocFiles tree exts) fs k i).counter =
      k + (findDocFiles tree exts).length :=
  runItems_counter_logs envf (findDocFiles tree exts) fs k i

/-- Counterexample to C6: with a well-formed response whose main-path
write raises, the item is not reported Failed — no output is written,
yet progress advances with an info-level success entry. -/
theorem write_error_reported_as_success :
    envWriteFail.writeMainOk = false ∧
    translateFile envWriteFail ⟨strL "a.md", strL "Hello"⟩ [] 0 =
      ⟨[], 1, [⟨.info, 1, .success⟩], 1⟩ :=
  ⟨rfl, by decide⟩

/-- C6 as amended: an exception during read, request, or the raw-fallback
write yields a Failed outcome whose progress entry is error-level and
carries the error, with the output tree unchanged; an exception during
the write of successfully decoded content, however, is swallowed inside
`save_translated_file`: nothing is written, yet the item's progress
entry is an info-level success line. -/
theorem item_failure_error_logged (env : ItemEnv) (item : SrcFile) (fs : FS)
    (k : Nat) (hnew : fsFind fs item.rel = none) :
    (∀ e, env.readRes = .error e →
      translateFile env item fs k =
        ⟨fs, k + 1, [⟨.error, k + 1, .fail e⟩], 0⟩) ∧
    (∀ content e, env.readRes = .ok content →
      env.apiRes (encodeEnvelope item.rel content) = .error e →
      translateFile env item fs k =
        ⟨fs, k + 1, [⟨.error, k + 1, .fail e⟩], 1⟩) ∧
    (∀ content resp, env.readRes = .ok content →
      env.apiRes (encodeEnvelope item.rel content) = .ok resp →
      decodeOption resp = none → env.writeFallbackOk = false →
      translateFile env item fs k =
        ⟨fs, k + 1, [⟨.error, k + 1, .fail (strL "write")⟩], 1⟩) ∧
    (∀ content resp body, env.readRes = .ok content →
      env.apiRes (encodeEnvelope item.rel content) = .ok resp →
      decodeOption resp = some body → env.writeMainOk = false →
      translateFile env item fs k =
        ⟨fs, k + 1, [⟨.info, k + 1, .success⟩], 1⟩) := by
  refine ⟨?_, ?_, ?_, ?_⟩
  · intro e he
    unfold translateFile
    rw [hnew, he]
  · intro content e hr ha
    unfold translateFile
    rw [hnew, hr]
    simp only
    rw [ha]
  · intro content resp hr ha hd hw
    unfold translateFile
    rw [hnew, hr]
    simp only
    rw [ha]
    simp only
    rw [saveTranslatedFile, hd, hw]
    simp
  · intro content resp body hr ha hd hw
    unfold translateFile
    rw [hnew, hr]
    simp only
    rw [ha]
    simp only
    rw [saveTranslatedFile, hd, hw]
    simp

/-- Witness for the amended C6: a read failure produces an error-level
Failed entry carrying the message, with the tree unchanged. -/
theorem item_failure_error_logged_witness :
    fsFind ([] : FS) (strL "a.md") = none ∧
    translateFile envReadFail ⟨strL "a.md", []⟩ [] 0 =
      ⟨[], 1, [⟨.error, 1, .fail (strL "boom")⟩], 0⟩ :=
  ⟨by decide,
    (item_failure_error_logged envReadFail ⟨strL "a.md", []⟩ [] 0
        (by decide)).1 (strL "boom") rfl⟩

/-- C7: each fatal condition is detected before dispatch and stops the
run with no further side effects: a missing or placeholder API key and a
non-directory input root stop it before anything is written, and a
client-construction failure stops it right after the mirror
synchronization, so nothing is created in the output tree after the
fatal condition is detected, no request is issued, and no progress line
is emitted. -/
theorem fatal_stops_before_dispatch (cfg : Config) (tree : List SrcFile)
    (envf : Nat → ItemEnv) (fs : FS) :
    ((cfg.apiKey = [] ∨ cfg.apiKey = strL "...") →
      mainRun cfg tree envf fs = ⟨fs, [], 0, .fatalNoKey⟩) ∧
    (¬(cfg.apiKey = [] ∨ cfg.apiKey = strL "...") → cfg.inputIsDir = false →
      mainRun cfg tree envf fs = ⟨fs, [], 0, .fatalNotDir⟩) ∧
    (¬(cfg.apiKey = [] ∨ cfg.apiKey = strL "...") → cfg.inputIsDir = true →
      findDocFiles tree cfg.exts ≠ [] → cfg.clientOk = false →
      mainRun cfg tree envf fs =
        ⟨syncDirectories tree cfg.exts fs, [], 0, .fatalClientInit⟩) := by
  refine ⟨?_, ?_, ?_⟩
  · intro h
    unfold mainRun
    rw [if_pos h]
  · intro h hdir
    unfold mainRun
    rw [if_neg h, hdir]
    simp
  · intro h hdir hitems hclient
    unfold mainRun
    rw [if_neg h, hdir]
    simp only [Bool.not_true, Bool.false_eq_true, if_false]
    rw [if_neg (by simpa [List.isEmpty_iff] using hitems), hclient]
    simp

/-- Witness for C7: with a valid key, a directory input, one discovered
file and a failing client constructor, the run ends at client
construction with exactly the synchronized tree, zero API calls and no
progress lines. -/
theorem fatal_stops_before_dispatch_witness :
    mainRun cfgClientFail [⟨strL "a.md", strL "x"⟩] (fun _ => envSkip) [] =
      ⟨syncDirectories [⟨strL "a.md", strL "x"⟩] [strL ".md"] [], [], 0,
        .fatalClientInit⟩ :=
  (fatal_stops_before_dispatch cfgClientFail [⟨strL "a.md", strL "x"⟩]
      (fun _ => envSkip) []).2.2 (by decide) rfl (by decide) rfl

/-- Counterexample to C8: with extensions `[".md"]`, a hidden file named
exactly `".md"` is selected for translation by the scanner (its name
ends with `".md"`), yet the mirror synchronizer also copies it (its
pathlib suffix is the empty string, which is not in the extension set):
the two tests disagree and both components handle the same file. -/
theorem scanner_sync_disagree_hidden_file :
    findDocFiles [⟨strL ".md", strL "x"⟩] [strL ".md"] =
      [⟨strL ".md", strL "x"⟩] ∧
    syncDirectories [⟨strL ".md", strL "x"⟩] [strL ".md"] [] =
      [(strL ".md", strL "x")] ∧
    ¬((∃ e ∈ [strL ".md"], e.isSuffixOf (strL ".md") = true) ↔
        pySuffix (strL ".md") ∈ [strL ".md"]) := by
  refine ⟨by decide, by decide, ?_⟩
  intro h
  have := h.mp ⟨strL ".md", by decide, by decide⟩
  revert this
  decide

lemma takeWhile_append_all {α : Type} (p : α → Bool) :
    ∀ (l₁ l₂ : List α), (∀ a ∈ l₁, p a = true) →
      List.takeWhile p (l₁ ++ l₂) = l₁ ++ List.takeWhile p l₂ := by
  intro l₁
  induction l₁ with
  | nil => intro l₂ h; simp
  | cons a t ih =>
    intro l₂ h
    rw [List.cons_append, List.takeWhile_cons, h a (List.mem_cons_self a t),
      ih l₂ (fun b hb => h b (List.mem_cons_of_mem a hb))]
    simp

lemma pySuffix_of_suffix (name s pre : Str) (hdot : '.' ∉ s) (hsne : s ≠ [])
    (hpre : pre ++ ('.' :: s) = name) (hprene : pre ≠ []) :
    pySuffix name = '.' :: s := by
  have hrev : name.reverse = s.reverse ++ ('.' :: pre.reverse) := by
    rw [← hpre]
    simp [List.reverse_append]
  have hall : ∀ a ∈ s.reverse, notDot a = true := by
    intro a ha
    simp only [notDot, decide_eq_true_eq, ne_eq]
    intro hcontr
    subst hcontr
    exact hdot (List.mem_reverse.mp ha)
  have ht : name.reverse.takeWhile notDot = s.reverse := by
    rw [hrev, takeWhile_append_all _ _ _ hall, List.takeWhile_cons]
    simp [notDot]
  have hlen : name.length = pre.length + s.length + 1 := by
    rw [← hpre]
    simp [List.length_append]
    omega
  have hplen : 0 < pre.length := List.length_pos.mpr hprene
  have hslen : 0 < s.length := List.length_pos.mpr hsne
  simp only [pySuffix, ht]
  rw [if_pos]
  · simp
  · constructor
    · simpa using hslen
    · simp only [List.length_reverse]
      omega

lemma dropWhile_head_false {α : Type} (p : α → Bool) :
    ∀ (l : List α) (a : α) (u : List α), List.dropWhile p l = a :: u →
      p a = false := by
  intro l
  induction l with
  | nil => intro a u h; simp at h
  | cons b t ih =>
    intro a u h
    rw [List.dropWhile_cons] at h
    by_cases hb : p b = true
    · rw [if_pos hb] at h
      exact ih a u h
    · rw [if_neg hb] at h
      simp only [List.cons.injEq] at h
      rw [← h.1]
      simpa using hb

lemma pySuffix_isSuffix (name : Str) (h : pySuffix name ≠ []) :
    pySuffix name <:+ name := by
  by_cases hc : 0 < (name.reverse.takeWhile notDot).length ∧
      (name.reverse.takeWhile notDot).length < name.length - 1
  · have hval : pySuffix name = '.' :: (name.reverse.takeWhile notDot).reverse := by
      simp only [pySuffix]
      rw [if_pos hc]
    have hsplit := List.takeWhile_append_dropWhile notDot name.reverse
    have hdne : name.reverse.dropWhile notDot ≠ [] := by
      intro hnil
      rw [hnil, List.append_nil] at hsplit
      have := congrArg List.length hsplit
      simp only [List.length_reverse] at this
      omega
    obtain ⟨a, u, hau⟩ := List.exists_cons_of_ne_nil hdne
    have ha : a = '.' := by
      have := dropWhile_head_false notDot name.reverse a u hau
      simpa [notDot] using this
    have hnr : name.reverse = name.reverse.takeWhile notDot ++ '.' :: u := by
      rw [← ha, ← hau]
      exact hsplit.symm
    have hname : name =
        u.reverse ++ '.' :: (name.reverse.takeWhile notDot).reverse := by
      have h2 := congrArg List.reverse hnr
      rw [List.reverse_reverse] at h2
      refine h2.trans ?_
      simp [List.reverse_append]
    rw [hval]
    exact ⟨u.reverse, hname.symm⟩
  · exfalso
    apply h
    simp only [pySuffix]
    rw [if_neg hc]

/-- C8 as amended: whenever every configured extension is a dot followed
by a nonempty dot-free tail, the scanner's ends-with test and the
synchronizer's suffix-membership test agree on every file name except a
name that is itself one of the extensions (a hidden file such as
`".md"`, which the scanner selects and the synchronizer also copies). -/
theorem scanner_sync_agree_on_proper_extensions (exts : List Str) (name : Str)
    (hwf : ∀ e ∈ exts, e.head? = some '.' ∧ 2 ≤ e.length ∧ '.' ∉ e.tail)
    (hname : name ∉ exts) :
    (∃ e ∈ exts, e.isSuffixOf name = true) ↔ pySuffix name ∈ exts := by
  constructor
  · rintro ⟨e, hmem, hsuf⟩
    obtain ⟨hhead, hlen, hdot⟩ := hwf e hmem
    obtain ⟨s, rfl⟩ : ∃ s, e = '.' :: s := by
      cases e with
      | nil => simp at hhead
      | cons a t =>
        simp only [List.head?_cons, Option.some_inj] at hhead
        exact ⟨t, by rw [hhead]⟩
    obtain ⟨pre, hpre⟩ := List.isSuffixOf_iff_suffix.mp hsuf
    have hprene : pre ≠ [] := by
      intro hcontr
      rw [hcontr, List.nil_append] at hpre
      exact hname (hpre ▸ hmem)
    have hsne : s ≠ [] := by
      intro hcontr
      rw [hcontr] at hlen
      simp at hlen
    rw [pySuffix_of_suffix name s pre (by simpa using hdot) hsne hpre hprene]
    exact hmem
  · intro hmem
    refine ⟨pySuffix name, hmem, ?_⟩
    have hne : pySuffix name ≠ [] := by
      intro hcontr
      have := (hwf (pySuffix name) hmem).1
      rw [hcontr] at this
      simp at this
    exact List.isSuffixOf_iff_suffix.mpr (pySuffix_isSuffix name hne)

/-- Witness for the amended C8: with extensions `[".md"]`, the two tests
agree on the ordinary names `"a.md"` (both classify it translatable) and
`"a.txt"` (both leave it to the synchronizer). -/
theorem scanner_sync_agree_witness :
    ((∃ e ∈ [strL ".md"], e.isSuffixOf (strL "a.md") = true) ↔
      pySuffix (strL "a.md") ∈ [strL ".md"]) ∧
    ((∃ e ∈ [strL ".md"], e.isSuffixOf (strL "a.txt") = true) ↔
      pySuffix (strL "a.txt") ∈ [strL ".md"]) :=
  ⟨scanner_sync_agree_on_proper_extensions [strL ".md"] (strL "a.md")
      (by decide) (by decide),
    scanner_sync_agree_on_proper_extensions [strL ".md"] (strL "a.txt")
      (by decide) (by decide)⟩

/-- Counterexample to C10: the decode pipeline strips trailing
whitespace before splitting, so a content ending in a newline does not
round-trip through the envelope: encoding `"x\n"` under path `"a"` and
decoding yields `"x"`. -/
theorem roundtrip_strips_trailing_whitespace :
    decodeContent (encodeEnvelope (strL "a") (strL "x\n")) = strL "x" ∧
    decodeContent (encodeEnvelope (strL "a") (strL "x\n")) ≠ strL "x\n" :=
  ⟨by decide, by decide⟩

lemma dropWhile_eq_self_of_head (p : Char → Bool) (s : Str)
    (h : ∀ c ∈ s.head?, p c = false) : List.dropWhile p s = s := by
  cases s with
  | nil => rfl
  | cons c t =>
    rw [List.dropWhile_cons, h c rfl]
    simp

lemma pyStrip_eq_self (s : Str)
    (hhead : ∀ c ∈ s.head?, isPySpace c = false)
    (hlast : ∀ c ∈ s.getLast?, isPySpace c = false) :
    pyStrip s = s := by
  unfold pyStrip
  rw [dropWhile_eq_self_of_head _ _ hhead]
  rw [dropWhile_eq_self_of_head _ _ ?hrev]
  · exact s.reverse_reverse
  case hrev =>
    intro c hc
    rw [List.head?_reverse] at hc
    exact hlast c hc

lemma splitAfterFirst_at_head (sep s : Str) (h : sep.isPrefixOf s = true)
    (hne : s ≠ []) : splitAfterFirst sep s = some (List.drop sep.length s) := by
  cases s with
  | nil => cases hne rfl
  | cons c rest =>
    unfold splitAfterFirst
    rw [h]
    simp

lemma splitAfterFirst_sep_append (post : Str) :
    ∀ pre : Str, '\n' ∉ pre →
      splitAfterFirst sepStr (pre ++ (sepStr ++ post)) = some post := by
  intro pre
  induction pre with
  | nil =>
    intro _
    rw [List.nil_append]
    have hp : sepStr.isPrefixOf (sepStr ++ post) = true :=
      List.isPrefixOf_iff_prefix.mpr ⟨post, rfl⟩
    have hne : sepStr ++ post ≠ [] := by
      intro hcontr
      have := congrArg List.length hcontr
      simp [sepStr, strL] at this
    rw [splitAfterFirst_at_head _ _ hp hne, List.drop_left]
  | cons a pre ih =>
    intro hmem
    have ha : a ≠ '\n' := fun hcontr => hmem (hcontr ▸ List.mem_cons_self a pre)
    rw [List.cons_append]
    unfold splitAfterFirst
    rw [if_neg ?hnp]
    · exact ih (fun hcontr => hmem (List.mem_cons_of_mem a hcontr))
    case hnp =>
      intro hcontr
      obtain ⟨t, ht⟩ := List.isPrefixOf_iff_prefix.mp hcontr
      have h5 : sepStr ++ t = '\n' :: (strL "---\n" ++ t) := rfl
      rw [h5, List.cons.injEq] at ht
      exact ha ht.1.symm

/-- C10 as amended: for every relative path containing no newline and
every nonempty content whose last character is not whitespace, decoding
the encoded request envelope returns exactly the original content; for
a content with trailing whitespace (or an empty content) the round trip
fails, as the counterexample shows. -/
theorem envelope_roundtrip (p c : Str) (hp : '\n' ∉ p) (hc : c ≠ [])
    (hlast : ∀ x ∈ c.getLast?, isPySpace x = false) :
    decodeContent (encodeEnvelope p c) = c := by
  have hhead : ∀ x ∈ (encodeEnvelope p c).head?, isPySpace x = false := by
    intro x hx
    have hF : (encodeEnvelope p c).head? = some 'F' := rfl
    rw [hF, Option.mem_some_iff] at hx
    rw [← hx]
    rfl
  have hlast2 : ∀ x ∈ (encodeEnvelope p c).getLast?, isPySpace x = false := by
    intro x hx
    apply hlast
    rw [encodeEnvelope, List.getLast?_append_of_ne_nil _ hc] at hx
    exact hx
  have hstrip : pyStrip (encodeEnvelope p c) = encodeEnvelope p c :=
    pyStrip_eq_self _ hhead hlast2
  have hpf : fenceStr.isPrefixOf (encodeEnvelope p c) = false := rfl
  have hfence : fenceStrip (encodeEnvelope p c) = some (encodeEnvelope p c) := by
    unfold fenceStrip
    rw [hpf]
    simp
  have hassoc : encodeEnvelope p c =
      (strL "FILE_PATH: " ++ p) ++ (sepStr ++ c) := by
    rw [encodeEnvelope]
    simp [List.append_assoc]
  have hsplit : splitAfterFirst sepStr (encodeEnvelope p c) = some c := by
    rw [hassoc]
    apply splitAfterFirst_sep_append
    intro hmem
    rcases List.mem_append.mp hmem with hm | hm
    · revert hm
      decide
    · exact hp hm
  rw [decodeContent, decodeOption, hstrip, hfence, Option.some_bind, hsplit,
    Option.getD_some]

/-- Witness for the amended C10: the spec-shaped envelope for path
`"a/b.md"` with content `"Hola"` round-trips exactly. -/
theorem envelope_roundtrip_witness :
    decodeContent (encodeEnvelope (strL "a/b.md") (strL "Hola")) =
      strL "Hola" :=
  envelope_roundtrip (strL "a/b.md") (strL "Hola") (by decide) (by decide)
    (by decide)

/-- Counterexample to C9: when the single item's API call fails during
the first run, no output file is written, so the second run over the
same output tree issues one API call rather than zero. -/
theorem second_run_api_calls_after_failed_first :
    (mainRun cfgOk [⟨strL "a.md", strL "x"⟩] (fun _ => envApiFail)
        (mainRun cfgOk [⟨strL "a.md", strL "x"⟩] (fun _ => envApiFail)
          []).fs).apiCalls = 1 ∧
    (mainRun cfgOk [⟨strL "a.md", strL "x"⟩] (fun _ => envApiFail)
        (mainRun cfgOk [⟨strL "a.md", strL "x"⟩] (fun _ => envApiFail)
          []).fs).apiCalls ≠ 0 :=
  ⟨by decide, by decide⟩

lemma fsFind_insert_self (p c : Str) (fs : FS) :
    fsFind (fsInsert p c fs) p = some c := by
  simp [fsInsert, fsFind]

lemma fsFind_insert_isSome (p c q : Str) (fs : FS)
    (h : (fsFind fs q).isSome) : (fsFind (fsInsert p c fs) q).isSome := by
  unfold fsInsert fsFind
  by_cases hpq : p = q
  · rw [if_pos hpq]
    rfl
  · rw [if_neg hpq]
    exact h

lemma saveTranslatedFile_fs_mono (resp outPath : Str) (w1 w2 : Bool)
    (fs fs1 : FS) (hsave : saveTranslatedFile resp outPath w1 w2 fs = some fs1)
    (q : Str) (h : (fsFind fs q).isSome) : (fsFind fs1 q).isSome := by
  unfold saveTranslatedFile at hsave
  cases hdec : decodeOption resp with
  | some body =>
    rw [hdec] at hsave
    dsimp only at hsave
    by_cases hw : w1 = true
    · rw [if_pos hw, Option.some_inj] at hsave
      rw [← hsave]
      exact fsFind_insert_isSome _ _ _ _ h
    · rw [if_neg hw, Option.some_inj] at hsave
      rw [← hsave]
      exact h
  | none =>
    rw [hdec] at hsave
    dsimp only at hsave
    by_cases hw : w2 = true
    · rw [if_pos hw, Option.some_inj] at hsave
      rw [← hsave]
      exact fsFind_insert_isSome _ _ _ _ h
    · rw [if_neg hw] at hsave
      cases hsave

lemma saveTranslatedFile_ok_writes (resp outPath : Str) (fs : FS) :
    ∃ fs1, saveTranslatedFile resp outPath true true fs = some fs1 ∧
      (fsFind fs1 outPath).isSome := by
  unfold saveTranslatedFile
  cases decodeOption resp with
  | some body =>
    exact ⟨fsInsert outPath body fs, by simp, by rw [fsFind_insert_self]; rfl⟩
  | none =>
    exact ⟨fsInsert outPath resp fs, by simp, by rw [fsFind_insert_self]; rfl⟩

lemma translateFile_fs_mono (env : ItemEnv) (item : SrcFile) (fs : FS)
    (k : Nat) (q : Str) (h : (fsFind fs q).isSome) :
    (fsFind (translateFile env item fs k).fs q).isSome := by
  unfold translateFile
  split
  · exact h
  · split
    · exact h
    · split
      · exact h
      · split
        · next fs1 heq =>
            exact saveTranslatedFile_fs_mono _ _ _ _ _ _ heq q h
        · exact h

lemma translateFile_writes_output (env : ItemEnv) (item : SrcFile) (fs : FS)
    (k : Nat) (hg : GoodEnv env) :
    (fsFind (translateFile env item fs k).fs item.rel).isSome := by
  obtain ⟨⟨content, hr⟩, hapi, hw1, hw2⟩ := hg
  cases hfind : fsFind fs item.rel with
  | some c =>
    rw [translateFile_skip_eq env item fs k c hfind]
    rw [hfind]
    rfl
  | none =>
    obtain ⟨resp, hresp⟩ := hapi (encodeEnvelope item.rel content)
    obtain ⟨fs1, hsave, hfs1⟩ :=
      saveTranslatedFile_ok_writes resp item.rel fs
    unfold translateFile
    rw [hfind, hr]
    simp only
    rw [hresp]
    simp only
    rw [hw1, hw2, hsave]
    exact hfs1

lemma runItems_fs_mono (envf : Nat → ItemEnv) :
    ∀ (items : List SrcFile) (fs : FS) (k i : Nat) (q : Str),
      (fsFind fs q).isSome →
      (fsFind (runItems envf items fs k i).fs q).isSome := by
  intro items
  induction items with
  | nil => intro fs k i q h; exact h
  | cons it rest ih =>
    intro fs k i q h
    simp only [runItems]
    exact ih _ _ _ q (translateFile_fs_mono (envf i) it fs k q h)

lemma runItems_writes_all (envf : Nat → ItemEnv)
    (hgood : ∀ i, GoodEnv (envf i)) :
    ∀ (items : List SrcFile) (fs : FS) (k i : Nat),
      ∀ it ∈ items, (fsFind (runItems envf items fs k i).fs it.rel).isSome := by
  intro items
  induction items with
  | nil => intro fs k i it hit; cases hit
  | cons hd rest ih =>
    intro fs k i it hit
    simp only [runItems]
    rcases List.mem_cons.mp hit with rfl | hmem
    · exact runItems_fs_mono envf rest _ _ _ it.rel
        (translateFile_writes_output (envf i) it fs k (hgood i))
    · exact ih _ _ _ it hmem

lemma syncDirectories_mono (exts : List Str) :
    ∀ (tree : List SrcFile) (fs : FS) (q : Str),
      (fsFind fs q).isSome →
      (fsFind (syncDirectories tree exts fs) q).isSome := by
  intro tree
  induction tree with
  | nil => intro fs q h; exact h
  | cons f rest ih =>
    intro fs q h
    unfold syncDirectories
    rw [List.foldl_cons]
    apply ih
    dsimp only
    split
    · exact fsFind_insert_isSome _ _ _ _ h
    · exact h

lemma runItems_skip_all (envf : Nat → ItemEnv) :
    ∀ (items : List SrcFile) (fs : FS) (k i : Nat),
      (∀ it ∈ items, (fsFind fs it.rel).isSome) →
      (runItems envf items fs k i).apiCalls = 0 ∧
      (runItems envf items fs k i).fs = fs := by
  intro items
  induction items with
  | nil => intro fs k i _; exact ⟨rfl, rfl⟩
  | cons hd rest ih =>
    intro fs k i hall
    obtain ⟨c, hc⟩ := Option.isSome_iff_exists.mp (hall hd (List.mem_cons_self hd rest))
    simp only [runItems, translateFile_skip_eq (envf i) hd fs k c hc]
    have hrest := ih fs (k + 1) (i + 1)
      (fun it hit => hall it (List.mem_cons_of_mem hd hit))
    exact ⟨by rw [hrest.1], hrest.2⟩

/-- C9 as amended: when a run's configuration passes the startup checks
and the first run's per-item oracles never fail (every read, request and
write succeeds), every work item's output path exists afterwards, so a
second run of the pipeline against the resulting output tree performs
zero API calls, whatever its own oracles do. -/
theorem second_run_zero_api_calls (cfg : Config) (tree : List SrcFile)
    (envf envf2 : Nat → ItemEnv) (fs : FS)
    (hkey : ¬(cfg.apiKey = [] ∨ cfg.apiKey = strL "..."))
    (hdir : cfg.inputIsDir = true) (hclient : cfg.clientOk = true)
    (hgood : ∀ i, GoodEnv (envf i)) :
    (mainRun cfg tree envf2 (mainRun cfg tree envf fs).fs).apiCalls = 0 := by
  have hm : ∀ (ef : Nat → ItemEnv) (g : FS), mainRun cfg tree ef g =
      if (findDocFiles tree cfg.exts).isEmpty then
        ⟨syncDirectories tree cfg.exts g, [], 0, .noFiles⟩
      else
        ⟨(runItems ef (findDocFiles tree cfg.exts)
            (syncDirectories tree cfg.exts g) 0 0).fs,
          (runItems ef (findDocFiles tree cfg.exts)
            (syncDirectories tree cfg.exts g) 0 0).logs,
          (runItems ef (findDocFiles tree cfg.exts)
            (syncDirectories tree cfg.exts g) 0 0).apiCalls, .completed⟩ := by
    intro ef g
    unfold mainRun
    rw [if_neg hkey, hdir, hclient]
    simp
  by_cases he : (findDocFiles tree cfg.exts).isEmpty
  · rw [hm envf fs, if_pos he, hm envf2 _, if_pos he]
  · rw [hm envf fs, if_neg he, hm envf2 _, if_neg he]
    apply (runItems_skip_all envf2 (findDocFiles tree cfg.exts) _ 0 0 ?_).1
    intro it hit
    apply syncDirectories_mono cfg.exts tree _ it.rel
    exact runItems_writes_all envf hgood (findDocFiles tree cfg.exts)
      (syncDirectories tree cfg.exts fs) 0 0 it hit

/-- Witness for the amended C9: after a clean first run over one file,
a second run (here given failing oracles) performs zero API calls. -/
theorem second_run_zero_api_calls_witness :
    (mainRun cfgOk [⟨strL "a.md", strL "x"⟩] (fun _ => envApiFail)
        (mainRun cfgOk [⟨strL "a.md", strL "x"⟩] (fun _ => envAllOk)
          []).fs).apiCalls = 0 :=
  second_run_zero_api_calls cfgOk [⟨strL "a.md", strL "x"⟩]
    (fun _ => envAllOk) (fun _ => envApiFail) [] (by decide) rfl rfl
    (fun _ => ⟨⟨strL "Hello", rfl⟩, fun q => ⟨_, rfl⟩, rfl, rfl⟩)

/-- C1 refuted (code bug): `log_translate_progress._index += 1` is an
unsynchronized load-add-store on shared state, so two concurrently
completing items admit an interleaving in which both threads load 0,
both store 1, and both emit index 1: the emitted progress indices are
`[1, 1]` — a duplicate, and index 2 is never used — while the fully
sequential schedule of the same two items emits `[1, 2]` as the claim
requires. -/
theorem progress_race_duplicate_indices :
    (raceExec [0, 1, 0, 1, 0, 1] (raceInit 2)).logs = [1, 1] ∧
    (raceExec [0, 0, 0, 1, 1, 1] (raceInit 2)).logs = [1, 2] :=
  ⟨by decide, by decide⟩
